import Mathlib

set_option maxRecDepth 10000

/-!
Verification of the SD-card OLED file browser
(`MEGA_SD_OLED_FileBrowser_LoadBar.ino`).

The sketch's global mutable state (`entries`, `entryCount`, `selectionIndex`,
`scrollOffset`, `currentPath`) is embedded as an explicit `Model` record, and
each C function that mutates the globals becomes a Lean function from `Model`
to `Model`.  C `int` variables are modelled as `Int` (values reachable in the
sketch are bounded by `MAX_ENTRIES = 50`, far below any machine-integer
limit); C strings are `String` (a list of characters), with the `snprintf` /
`strncpy` buffer truncations of the sketch modelled explicitly.  The SD
storage collaborator is abstracted as an oracle `String → OpenResult` telling,
for each path, whether `SD.open` fails, yields a non-directory, or yields a
directory with a given child enumeration.  Display calls and `delay` have no
effect on the model state and are omitted.
-/

namespace FileBrowser

/-- `const int VISIBLE_ITEMS = 5`. -/
def VISIBLE_ITEMS : Int := 5

/-- `const int MAX_ENTRIES = 50`. -/
def MAX_ENTRIES : Int := 50

/-- `const bool SHOW_ONLY_STL = false` (optional extension filter, disabled). -/
def SHOW_ONLY_STL : Bool := false

/-- `const unsigned long DEBOUNCE_MS = 120`. -/
def DEBOUNCE_MS : Nat := 120

/-- `struct Entry { char name[32]; bool isDir; }`. -/
structure Entry where
  name : String
  isDir : Bool
deriving DecidableEq

/-- The sketch's global browser state: the fixed-capacity entry array, the
number of valid entries, the selection index, the scroll offset and the
current path. -/
structure Model where
  entries : List Entry
  entryCount : Int
  selectionIndex : Int
  scrollOffset : Int
  currentPath : String
deriving DecidableEq

/-- `clampScroll()`: re-establishes the selection/scroll window invariant.
Direct transcription of the sequence of conditional assignments. -/
def clampScroll (m : Model) : Model :=
  if m.entryCount ≤ 0 then
    { m with selectionIndex := 0, scrollOffset := 0 }
  else
    let sel0 := if m.selectionIndex < 0 then 0 else m.selectionIndex
    let sel := if sel0 > m.entryCount - 1 then m.entryCount - 1 else sel0
    let off0 := if sel < m.scrollOffset then sel else m.scrollOffset
    let off1 := if sel ≥ off0 + VISIBLE_ITEMS then sel - (VISIBLE_ITEMS - 1) else off0
    let off2 := if off1 < 0 then 0 else off1
    let maxOffset := if m.entryCount - VISIBLE_ITEMS < 0 then 0 else m.entryCount - VISIBLE_ITEMS
    let off := if off2 > maxOffset then maxOffset else off2
    { m with selectionIndex := sel, scrollOffset := off }

/-- `onScroll()` without the final `drawUI()` call (display only):
wrapping increment of the selection followed by `clampScroll`. -/
def onScroll (m : Model) : Model :=
  if m.entryCount ≤ 0 then m
  else
    let sel1 := m.selectionIndex + 1
    let sel := if sel1 ≥ m.entryCount then 0 else sel1
    clampScroll { m with selectionIndex := sel }

/-- The DirectoryModel invariant stated in the specification:
`0 ≤ scrollOffset ≤ selectionIndex ≤ scrollOffset + VISIBLE - 1`, and
`scrollOffset + VISIBLE ≤ entryCount` unless `entryCount ≤ VISIBLE`, in which
case `scrollOffset = 0`. -/
def Inv (m : Model) : Prop :=
  0 ≤ m.scrollOffset ∧
  m.scrollOffset ≤ m.selectionIndex ∧
  m.selectionIndex ≤ m.scrollOffset + VISIBLE_ITEMS - 1 ∧
  (VISIBLE_ITEMS < m.entryCount → m.scrollOffset + VISIBLE_ITEMS ≤ m.entryCount) ∧
  (m.entryCount ≤ VISIBLE_ITEMS → m.scrollOffset = 0)

instance (m : Model) : Decidable (Inv m) := by
  unfold Inv; infer_instance

/-- `endsWithSTL(const char* s)`: true when the name ends, case-insensitively,
in ".stl". -/
def endsWithSTL (s : String) : Bool :=
  let cs := s.data
  if cs.length < 4 then false
  else
    match cs.drop (cs.length - 4) with
    | [c0, c1, c2, c3] =>
        (c0 == '.') && (c1 == 's' || c1 == 'S') && (c2 == 't' || c2 == 'T') &&
          (c3 == 'l' || c3 == 'L')
    | _ => false

/-- `strncpy(entries[i].name, nm, 31)` with forced terminator: the stored name
is the first 31 characters of the enumerated name. -/
def truncName (s : String) : String := ⟨s.data.take 31⟩

/-- An `Entry` as `loadDirectory` stores it: name truncated to the 32-byte
field. -/
def storeEntry (e : Entry) : Entry := ⟨truncName e.name, e.isDir⟩

/-- `bool keep = true; if (!isDir && SHOW_ONLY_STL) keep = endsWithSTL(nm);` -/
def keepEntry (e : Entry) : Bool :=
  if (!e.isDir) && SHOW_ONLY_STL then endsWithSTL e.name else true

/-- What `SD.open(path)` yields: failure to open, a non-directory file, or a
directory with its child enumeration (in the order `openNextFile` returns
them). -/
inductive OpenResult where
  | fail
  | file
  | dir (children : List Entry)

/-- The enumeration loop of `loadDirectory`: `while (f && entryCount <
MAX_ENTRIES)`, filtering with `keepEntry`, storing truncated names, counting
only kept entries.  Returns the list of stored entries, written sequentially
at indices `cnt, cnt+1, ...` of the entry array. -/
def scanChildren : List Entry → Int → List Entry
  | [], _ => []
  | e :: rest, cnt =>
    if cnt < MAX_ENTRIES then
      if keepEntry e then storeEntry e :: scanChildren rest (cnt + 1)
      else scanChildren rest cnt
    else []

/-- `loadDirectory(const char* path)`: resets count/selection/scroll to 0
first, fails if the path cannot be opened or is not a directory, otherwise
fills the entry array prefix from the enumeration and calls `clampScroll`.
The entry array is overwritten only on the prefix actually written. -/
def loadDirectory (fs : String → OpenResult) (path : String) (m : Model) :
    Bool × Model :=
  let m0 := { m with entryCount := 0, selectionIndex := 0, scrollOffset := 0 }
  match fs path with
  | OpenResult.fail => (false, m0)
  | OpenResult.file => (false, m0)
  | OpenResult.dir children =>
      let stored := scanChildren children 0
      let m1 := { m0 with
        entries := stored ++ m0.entries.drop stored.length,
        entryCount := (stored.length : Int) }
      (true, clampScroll m1)

/-- `snprintf(out, 80, ...)`: the written string is truncated to 79
characters plus the terminator. -/
def snprintf80 (s : String) : String := ⟨s.data.take 79⟩

/-- `strncpy(dst, src, sizeof(dst)-1)` into an 80-byte buffer with forced
terminator: keeps the first 79 characters. -/
def strncpy79 (s : String) : String := ⟨s.data.take 79⟩

/-- `pathJoin(out, 80, base, child)`. -/
def pathJoin (base child : String) : String :=
  if base = "/" then snprintf80 ("/" ++ child)
  else snprintf80 (base ++ "/" ++ child)

/-- Index of the last '/' in a character list (`strrchr(path, '/')`). -/
def lastSlash : List Char → Option Nat
  | [] => none
  | c :: rest =>
    match lastSlash rest with
    | some i => some (i + 1)
    | none => if c = '/' then some 0 else none

/-- `goParent(char* path)`: root is returned unchanged; one trailing '/' is
stripped; then the buffer is cut at the last remaining '/' (cut after it when
it is the first character; replaced by "/" when there is none). -/
def goParent (path : String) : String :=
  if path = "/" then path
  else
    let cs := path.data
    let cs1 := if cs.length > 1 ∧ cs.getLast? = some '/' then cs.dropLast else cs
    match lastSlash cs1 with
    | none => "/"
    | some i => if i = 0 then ⟨cs1.take 1⟩ else ⟨cs1.take i⟩

/-- `onEnter()` without the display/delay calls: on a directory entry, join
the path and attempt to load it, committing `currentPath` only on success; on
a file entry the model is untouched.  The selected entry is read from the
array before `loadDirectory` mutates the model, as in the C control flow. -/
def onEnter (fs : String → OpenResult) (m : Model) : Model :=
  if m.entryCount ≤ 0 then m
  else
    let e := m.entries.getD m.selectionIndex.toNat ⟨"", false⟩
    if e.isDir then
      let newPath := pathJoin m.currentPath e.name
      let r := loadDirectory fs newPath m
      if r.1 then { r.2 with currentPath := strncpy79 newPath }
      else r.2
    else m

/-- `onBack()` without the display calls: no-op at root; otherwise compute the
parent of a copy of `currentPath`, try to load it, commit on success, and on
failure force `currentPath = "/"` and load root unconditionally. -/
def onBack (fs : String → OpenResult) (m : Model) : Model :=
  if m.currentPath = "/" then m
  else
    let parent := goParent (strncpy79 m.currentPath)
    let r := loadDirectory fs parent m
    if r.1 then { r.2 with currentPath := strncpy79 parent }
    else
      let r2 := loadDirectory fs "/" r.2
      { r2.2 with currentPath := "/" }

/-- Debounce state of one button: the last sampled level (`true` = HIGH =
released under the pull-up wiring), the time of the last observed level
change (`lastTime`), and whether control is inside the blocking release-wait
loop `while (digitalRead(pin) == LOW) delay(5);`. -/
structure DebSt where
  lastState : Bool
  lastTime : Nat
  waiting : Bool
deriving DecidableEq

/-- One `digitalRead` sample `(t, level)` fed to `buttonPressed`.  Outside the
wait loop this is one call to `buttonPressed`: record a level change, then
emit a press exactly when the level is LOW and has been so for more than
`DEBOUNCE_MS`; emission enters the release-wait loop.  Inside the wait loop
each sample is one poll iteration: LOW keeps waiting, HIGH exits the loop
setting `lastState = HIGH; lastTime = millis()`. -/
def debStep (st : DebSt) (s : Nat × Bool) : DebSt × Bool :=
  if st.waiting then
    if s.2 = false then (st, false)
    else ({ lastState := true, lastTime := s.1, waiting := false }, false)
  else
    let st1 := if s.2 ≠ st.lastState then
        { st with lastState := s.2, lastTime := s.1 } else st
    if s.2 = false ∧ s.1 - st1.lastTime > DEBOUNCE_MS then
      ({ st1 with waiting := true }, true)
    else (st1, false)

/-- Run the debouncer over a whole sample trace, collecting the times at
which a press event is emitted. -/
def debRun (st : DebSt) : List (Nat × Bool) → List Nat
  | [] => []
  | s :: rest =>
    let r := debStep st s
    if r.2 then s.1 :: debRun r.1 rest else debRun r.1 rest

/-- The scenario state of the specification: a directory with seven entries,
`VISIBLE = 5`, cursor at the top. -/
def sevenEntries : Model :=
  { entries := [⟨"a", false⟩, ⟨"b", false⟩, ⟨"c", false⟩, ⟨"d", false⟩,
                ⟨"e", false⟩, ⟨"f", false⟩, ⟨"g", false⟩],
    entryCount := 7, selectionIndex := 0, scrollOffset := 0, currentPath := "/" }

end FileBrowser

namespace FileBrowser

/-- `clampScroll` establishes the invariant from any state with at least one
entry. -/
theorem clampScroll_inv (m : Model) (h : 0 < m.entryCount) : Inv (clampScroll m) := by
  unfold clampScroll Inv VISIBLE_ITEMS
  dsimp only
  split_ifs <;> dsimp only <;> omega

/-- `clampScroll` never changes `entryCount`, `entries` or `currentPath`. -/
theorem clampScroll_frame (m : Model) :
    (clampScroll m).entryCount = m.entryCount ∧
    (clampScroll m).entries = m.entries ∧
    (clampScroll m).currentPath = m.currentPath := by
  unfold clampScroll
  split_ifs <;> simp

/-- `onScroll` never changes `entryCount`. -/
theorem onScroll_entryCount (m : Model) : (onScroll m).entryCount = m.entryCount := by
  unfold onScroll
  split_ifs with h
  · rfl
  · exact (clampScroll_frame _).1

/-- `onScroll` establishes the invariant whenever there are entries. -/
theorem onScroll_inv (m : Model) (h : 0 < m.entryCount) : Inv (onScroll m) := by
  unfold onScroll
  split_ifs with h0
  · omega
  · exact clampScroll_inv _ (by simpa using h)

/-- With at least one entry, `clampScroll` leaves the selection inside
`[0, entryCount - 1]`. -/
theorem clampScroll_sel_bounds (m : Model) (h : 0 < m.entryCount) :
    0 ≤ (clampScroll m).selectionIndex ∧
    (clampScroll m).selectionIndex ≤ m.entryCount - 1 := by
  unfold clampScroll
  dsimp only
  split_ifs <;> dsimp only <;> omega

/-- `clampScroll` does not move a selection that is already in range. -/
theorem clampScroll_sel_eq (m : Model) (h0 : 0 ≤ m.selectionIndex)
    (h1 : m.selectionIndex ≤ m.entryCount - 1) :
    (clampScroll m).selectionIndex = m.selectionIndex := by
  unfold clampScroll
  dsimp only
  split_ifs <;> dsimp only <;> omega

/-- One `onScroll` step on an in-range state increments the selection
modulo `entryCount`. -/
theorem onScroll_sel_step (m : Model) (h : 0 < m.entryCount)
    (h0 : 0 ≤ m.selectionIndex) (h1 : m.selectionIndex < m.entryCount) :
    (onScroll m).selectionIndex = (m.selectionIndex + 1) % m.entryCount := by
  unfold onScroll
  rw [if_neg (by omega)]
  dsimp only
  by_cases hw : m.selectionIndex + 1 ≥ m.entryCount
  · rw [if_pos hw]
    have hsel : m.selectionIndex + 1 = m.entryCount := by omega
    rw [clampScroll_sel_eq _ (by dsimp only; omega) (by dsimp only; omega), hsel,
      Int.emod_self]
  · rw [if_neg hw]
    rw [clampScroll_sel_eq _ (by dsimp only; omega) (by dsimp only; omega)]
    dsimp only
    rw [Int.emod_eq_of_lt (by omega) (by omega)]

/-- Iterating `onScroll` on an in-range state: the entry count is fixed and
the selection advances by the iteration count, modulo `entryCount`. -/
theorem onScroll_iterate (m : Model) (h : 0 < m.entryCount)
    (h0 : 0 ≤ m.selectionIndex) (h1 : m.selectionIndex < m.entryCount) (n : Nat) :
    (onScroll^[n] m).entryCount = m.entryCount ∧
    (onScroll^[n] m).selectionIndex = (m.selectionIndex + n) % m.entryCount := by
  induction n with
  | zero =>
      refine ⟨rfl, ?_⟩
      simpa using (Int.emod_eq_of_lt h0 h1).symm
  | succ n ih =>
      obtain ⟨hc, hs⟩ := ih
      have hsb0 : 0 ≤ (onScroll^[n] m).selectionIndex := by
        rw [hs]; exact Int.emod_nonneg _ (by omega)
      have hsb1 : (onScroll^[n] m).selectionIndex < (onScroll^[n] m).entryCount := by
        rw [hs, hc]; exact Int.emod_lt_of_pos _ h
      constructor
      · rw [Function.iterate_succ_apply', onScroll_entryCount, hc]
      · rw [Function.iterate_succ_apply',
          onScroll_sel_step _ (by rw [hc]; exact h) hsb0 hsb1, hs, hc,
          Int.emod_add_emod]
        push_cast
        ring_nf

/-- C2: from any starting state with at least one entry, after every call in
any finite sequence of `advanceSelection` (`onScroll`) calls the window
invariant holds: `0 ≤ scrollOffset ≤ selectionIndex ≤ scrollOffset +
VISIBLE - 1`, and `scrollOffset + VISIBLE ≤ entryCount` unless
`entryCount ≤ VISIBLE`, in which case `scrollOffset = 0`. -/
theorem advance_preserves_invariant (m : Model) (h : 0 < m.entryCount) (n : Nat) :
    Inv (onScroll^[n + 1] m) := by
  have hc : ∀ k : Nat, (onScroll^[k] m).entryCount = m.entryCount := by
    intro k
    induction k with
    | zero => rfl
    | succ k ih => rw [Function.iterate_succ_apply', onScroll_entryCount, ih]
  rw [Function.iterate_succ_apply']
  exact onScroll_inv _ (by rw [hc]; exact h)

/-- C2, instantiated: the invariant after one call on a one-entry listing. -/
theorem advance_preserves_invariant_witness :
    0 < (Model.mk [⟨"a", false⟩] 1 0 0 "/").entryCount ∧
    Inv (onScroll^[1] (Model.mk [⟨"a", false⟩] 1 0 0 "/")) :=
  ⟨by decide, advance_preserves_invariant _ (by decide) 0⟩

/-- C3: whenever the selection has reached or passed `scrollOffset + VISIBLE`,
`clampScroll` sets `scrollOffset = selectionIndex - (VISIBLE - 1)` and then
clamps it into `[0, max 0 (entryCount - VISIBLE)]`; and in the seven-entry
scenario advancing the selection to index 6 yields `scrollOffset = 2`, while
one further advance wraps to `selectionIndex = 0`, `scrollOffset = 0`. -/
theorem scroll_forward_push (m : Model) (h : 0 < m.entryCount)
    (h2 : 0 ≤ m.scrollOffset)
    (h3 : m.scrollOffset + VISIBLE_ITEMS ≤ m.selectionIndex)
    (h4 : m.selectionIndex ≤ m.entryCount - 1) :
    (clampScroll m).scrollOffset =
      min (max (m.selectionIndex - (VISIBLE_ITEMS - 1)) 0)
        (max (m.entryCount - VISIBLE_ITEMS) 0) ∧
    (onScroll^[6] sevenEntries).selectionIndex = 6 ∧
    (onScroll^[6] sevenEntries).scrollOffset = 2 ∧
    (onScroll^[7] sevenEntries).selectionIndex = 0 ∧
    (onScroll^[7] sevenEntries).scrollOffset = 0 := by
  refine ⟨?_, by decide, by decide, by decide, by decide⟩
  unfold VISIBLE_ITEMS at h3
  unfold clampScroll VISIBLE_ITEMS
  dsimp only
  split_ifs <;> dsimp only <;> omega

/-- C3, instantiated on the seven-entry scenario state with the selection on
the last entry and the window still at the top. -/
theorem scroll_forward_push_witness :
    0 < (Model.mk [⟨"a", false⟩, ⟨"b", false⟩, ⟨"c", false⟩, ⟨"d", false⟩,
        ⟨"e", false⟩, ⟨"f", false⟩, ⟨"g", false⟩] 7 6 0 "/").entryCount ∧
    (clampScroll (Model.mk [⟨"a", false⟩, ⟨"b", false⟩, ⟨"c", false⟩,
        ⟨"d", false⟩, ⟨"e", false⟩, ⟨"f", false⟩, ⟨"g", false⟩] 7 6 0 "/")).scrollOffset =
      min (max (6 - (VISIBLE_ITEMS - 1)) 0) (max (7 - VISIBLE_ITEMS) 0) :=
  ⟨by decide,
    (scroll_forward_push _ (by decide) (by decide) (by decide) (by decide)).1⟩

/-- C6: `advanceSelection` is cyclic — from any in-range state with at least
one entry, calling `onScroll` `entryCount` times returns `selectionIndex` to
its original value. -/
theorem advance_cyclic (m : Model) (h : 0 < m.entryCount)
    (h0 : 0 ≤ m.selectionIndex) (h1 : m.selectionIndex < m.entryCount) :
    (onScroll^[m.entryCount.toNat] m).selectionIndex = m.selectionIndex := by
  obtain ⟨-, hs⟩ := onScroll_iterate m h h0 h1 m.entryCount.toNat
  rw [hs, Int.toNat_of_nonneg (by omega : (0 : Int) ≤ m.entryCount)]
  have hrw : m.selectionIndex + m.entryCount =
      m.selectionIndex + m.entryCount * 1 := by ring
  rw [hrw, Int.add_mul_emod_self_left, Int.emod_eq_of_lt h0 h1]

/-- On failure, `loadDirectory` returns the input model with the count,
selection and scroll offset zeroed and everything else untouched. -/
theorem loadDirectory_fail_state (fs : String → OpenResult) (path : String)
    (m : Model) (h : (loadDirectory fs path m).1 = false) :
    (loadDirectory fs path m).2 =
      { m with entryCount := 0, selectionIndex := 0, scrollOffset := 0 } := by
  unfold loadDirectory
  cases hfs : fs path
  · rfl
  · rfl
  · exfalso
    unfold loadDirectory at h
    rw [hfs] at h
    simp at h

/-- The selection is in range after any `loadDirectory` whose resulting count
is positive. -/
theorem loadDirectory_sel_bounds (fs : String → OpenResult) (path : String)
    (m : Model) (h : 0 < (loadDirectory fs path m).2.entryCount) :
    0 ≤ (loadDirectory fs path m).2.selectionIndex ∧
    (loadDirectory fs path m).2.selectionIndex <
      (loadDirectory fs path m).2.entryCount := by
  unfold loadDirectory at h ⊢
  cases hfs : fs path <;> rw [hfs] at h <;> dsimp only at h
  · omega
  · omega
  · dsimp only
    rw [(clampScroll_frame _).1] at h ⊢
    have hb := clampScroll_sel_bounds _ h
    exact ⟨hb.1, by omega⟩

/-- C9: whenever `loadDirectory` fails, it has already reset `entryCount`,
`selectionIndex` and `scrollOffset` to 0 and leaves them 0 on return (the
entry array bytes and `currentPath` stay as they were), so the in-memory
listing after a failed load is the empty model, not the previous
directory. -/
theorem load_failure_resets_model (fs : String → OpenResult) (path : String)
    (m : Model) (h : (loadDirectory fs path m).1 = false) :
    (loadDirectory fs path m).2.entryCount = 0 ∧
    (loadDirectory fs path m).2.selectionIndex = 0 ∧
    (loadDirectory fs path m).2.scrollOffset = 0 ∧
    (loadDirectory fs path m).2.entries = m.entries ∧
    (loadDirectory fs path m).2.currentPath = m.currentPath := by
  rw [loadDirectory_fail_state fs path m h]
  exact ⟨rfl, rfl, rfl, rfl, rfl⟩

/-- C9, instantiated: a load through an oracle that cannot open any path. -/
theorem load_failure_resets_model_witness :
    (loadDirectory (fun _ => OpenResult.fail) "/x"
        (Model.mk [⟨"a", true⟩, ⟨"b", false⟩] 2 1 0 "/")).1 = false ∧
    (loadDirectory (fun _ => OpenResult.fail) "/x"
        (Model.mk [⟨"a", true⟩, ⟨"b", false⟩] 2 1 0 "/")).2.entryCount = 0 ∧
    (loadDirectory (fun _ => OpenResult.fail) "/x"
        (Model.mk [⟨"a", true⟩, ⟨"b", false⟩] 2 1 0 "/")).2.selectionIndex = 0 ∧
    (loadDirectory (fun _ => OpenResult.fail) "/x"
        (Model.mk [⟨"a", true⟩, ⟨"b", false⟩] 2 1 0 "/")).2.scrollOffset = 0 :=
  ⟨by decide,
    (load_failure_resets_model _ _ _ (by decide)).1,
    (load_failure_resets_model _ _ _ (by decide)).2.1,
    (load_failure_resets_model _ _ _ (by decide)).2.2.1⟩

/-- C1 fails on the code: with the selection on directory entry "e" at index
1 and a storage oracle on which every open fails, pressing Enter does not
leave the model byte-for-byte unchanged — the selection index is zeroed. -/
theorem enter_fail_not_noop_cex :
    ¬ ((onEnter (fun _ => OpenResult.fail)
          (Model.mk [⟨"d", true⟩, ⟨"e", true⟩] 2 1 0 "/")).currentPath = "/" ∧
       (onEnter (fun _ => OpenResult.fail)
          (Model.mk [⟨"d", true⟩, ⟨"e", true⟩] 2 1 0 "/")).entries =
         [⟨"d", true⟩, ⟨"e", true⟩] ∧
       (onEnter (fun _ => OpenResult.fail)
          (Model.mk [⟨"d", true⟩, ⟨"e", true⟩] 2 1 0 "/")).selectionIndex = 1 ∧
       (onEnter (fun _ => OpenResult.fail)
          (Model.mk [⟨"d", true⟩, ⟨"e", true⟩] 2 1 0 "/")).scrollOffset = 0) := by
  decide

/-- C1, amended: if Enter is pressed on a directory entry and the load of the
joined path fails, then after the transient overlay `currentPath` and the
entry array are unchanged, but `entryCount`, `selectionIndex` and
`scrollOffset` have been reset to 0 — the failed navigation empties the
in-memory listing rather than being a no-op on the model. -/
theorem enter_fail_empties_model (fs : String → OpenResult) (m : Model)
    (h : 0 < m.entryCount)
    (hdir : (m.entries.getD m.selectionIndex.toNat ⟨"", false⟩).isDir = true)
    (hfail : (loadDirectory fs
        (pathJoin m.currentPath
          (m.entries.getD m.selectionIndex.toNat ⟨"", false⟩).name) m).1 = false) :
    (onEnter fs m).currentPath = m.currentPath ∧
    (onEnter fs m).entries = m.entries ∧
    (onEnter fs m).entryCount = 0 ∧
    (onEnter fs m).selectionIndex = 0 ∧
    (onEnter fs m).scrollOffset = 0 := by
  unfold onEnter
  rw [if_neg (by omega)]
  dsimp only
  rw [if_pos hdir, if_neg (by rw [hfail]; exact Bool.false_ne_true)]
  rw [loadDirectory_fail_state _ _ _ hfail]
  exact ⟨rfl, rfl, rfl, rfl, rfl⟩

/-- C1 (amended form), instantiated on the counterexample state. -/
theorem enter_fail_empties_model_witness :
    0 < (Model.mk [⟨"d", true⟩, ⟨"e", true⟩] 2 1 0 "/").entryCount ∧
    (onEnter (fun _ => OpenResult.fail)
        (Model.mk [⟨"d", true⟩, ⟨"e", true⟩] 2 1 0 "/")).currentPath = "/" ∧
    (onEnter (fun _ => OpenResult.fail)
        (Model.mk [⟨"d", true⟩, ⟨"e", true⟩] 2 1 0 "/")).entryCount = 0 ∧
    (onEnter (fun _ => OpenResult.fail)
        (Model.mk [⟨"d", true⟩, ⟨"e", true⟩] 2 1 0 "/")).selectionIndex = 0 :=
  ⟨by decide,
    (enter_fail_empties_model _ _ (by decide) (by decide) (by decide)).1,
    (enter_fail_empties_model _ _ (by decide) (by decide) (by decide)).2.2.1,
    (enter_fail_empties_model _ _ (by decide) (by decide) (by decide)).2.2.2.1⟩

/-- C10: `onScroll` and `onEnter` return immediately without any state change
when the listing is empty, and from an in-range selection both keep
`0 ≤ selectionIndex < entryCount` whenever the resulting count is positive,
so `entries[selectionIndex]` is never indexed outside `[0, entryCount)`. -/
theorem index_in_bounds (fs : String → OpenResult) (m : Model) :
    (m.entryCount ≤ 0 → onScroll m = m ∧ onEnter fs m = m) ∧
    (0 < m.entryCount → 0 ≤ m.selectionIndex → m.selectionIndex < m.entryCount →
      (0 ≤ (onScroll m).selectionIndex ∧
        (onScroll m).selectionIndex < (onScroll m).entryCount) ∧
      (0 < (onEnter fs m).entryCount →
        0 ≤ (onEnter fs m).selectionIndex ∧
        (onEnter fs m).selectionIndex < (onEnter fs m).entryCount)) := by
  constructor
  · intro h
    constructor
    · unfold onScroll
      rw [if_pos h]
    · unfold onEnter
      rw [if_pos h]
  · intro h h0 h1
    constructor
    · rw [onScroll_entryCount]
      unfold onScroll
      rw [if_neg (by omega)]
      dsimp only
      have hb := clampScroll_sel_bounds
        { m with selectionIndex :=
            if m.selectionIndex + 1 ≥ m.entryCount then 0 else m.selectionIndex + 1 }
        (by dsimp only; omega)
      dsimp only at hb
      omega
    · unfold onEnter
      rw [if_neg (by omega)]
      dsimp only
      by_cases hd : (m.entries.getD m.selectionIndex.toNat ⟨"", false⟩).isDir = true
      · rw [if_pos hd]
        by_cases hr : (loadDirectory fs
            (pathJoin m.currentPath
              (m.entries.getD m.selectionIndex.toNat ⟨"", false⟩).name) m).1 = true
        · rw [if_pos hr]
          dsimp only
          exact fun hcount => loadDirectory_sel_bounds _ _ _ hcount
        · rw [if_neg hr]
          rw [loadDirectory_fail_state _ _ _ (Bool.not_eq_true _ ▸ hr)]
          intro hcount
          exact absurd hcount (by dsimp only; omega)
      · rw [if_neg hd]
        intro _
        exact ⟨h0, h1⟩

/-- C10, instantiated: a two-entry listing with the selection on the second
entry, Enter pressed on a directory whose load succeeds with one child. -/
theorem index_in_bounds_witness :
    0 < (Model.mk [⟨"d", true⟩, ⟨"e", true⟩] 2 1 0 "/").entryCount ∧
    (0 ≤ (onScroll (Model.mk [⟨"d", true⟩, ⟨"e", true⟩] 2 1 0 "/")).selectionIndex ∧
      (onScroll (Model.mk [⟨"d", true⟩, ⟨"e", true⟩] 2 1 0 "/")).selectionIndex <
        (onScroll (Model.mk [⟨"d", true⟩, ⟨"e", true⟩] 2 1 0 "/")).entryCount) ∧
    (0 ≤ (onEnter (fun _ => OpenResult.dir [⟨"f", false⟩])
        (Model.mk [⟨"d", true⟩, ⟨"e", true⟩] 2 1 0 "/")).selectionIndex ∧
      (onEnter (fun _ => OpenResult.dir [⟨"f", false⟩])
          (Model.mk [⟨"d", true⟩, ⟨"e", true⟩] 2 1 0 "/")).selectionIndex <
        (onEnter (fun _ => OpenResult.dir [⟨"f", false⟩])
            (Model.mk [⟨"d", true⟩, ⟨"e", true⟩] 2 1 0 "/")).entryCount) :=
  ⟨by decide,
    ((index_in_bounds (fun _ => OpenResult.dir [⟨"f", false⟩])
        (Model.mk [⟨"d", true⟩, ⟨"e", true⟩] 2 1 0 "/")).2
      (by decide) (by decide) (by decide)).1,
    ((index_in_bounds (fun _ => OpenResult.dir [⟨"f", false⟩])
        (Model.mk [⟨"d", true⟩, ⟨"e", true⟩] 2 1 0 "/")).2
      (by decide) (by decide) (by decide)).2 (by decide)⟩

/-- With `SHOW_ONLY_STL = false` every enumerated child is kept. -/
theorem keepEntry_eq_true (e : Entry) : keepEntry e = true := by
  unfold keepEntry SHOW_ONLY_STL
  simp

/-- With the filter disabled, the enumeration loop stores the truncated form
of the first `MAX_ENTRIES - cnt` children. -/
theorem scanChildren_no_filter (l : List Entry) :
    ∀ cnt : Int, 0 ≤ cnt → cnt ≤ MAX_ENTRIES →
      scanChildren l cnt = (l.take (MAX_ENTRIES - cnt).toNat).map storeEntry := by
  induction l with
  | nil => intro cnt h0 h1; simp [scanChildren]
  | cons e rest ih =>
      intro cnt h0 h1
      unfold scanChildren
      by_cases hlt : cnt < MAX_ENTRIES
      · rw [if_pos hlt, keepEntry_eq_true, if_pos rfl]
        have hn : (MAX_ENTRIES - cnt).toNat = (MAX_ENTRIES - (cnt + 1)).toNat + 1 := by
          unfold MAX_ENTRIES at hlt ⊢
          omega
        rw [hn, List.take_succ_cons, List.map_cons,
          ih (cnt + 1) (by omega) (by unfold MAX_ENTRIES at hlt ⊢; omega)]
      · rw [if_neg hlt]
        have hz : (MAX_ENTRIES - cnt).toNat = 0 := by
          unfold MAX_ENTRIES at hlt h1 ⊢
          omega
        rw [hz]
        simp

/-- Storing an entry whose name already fits the 32-byte field is the
identity. -/
theorem storeEntry_eq_self (e : Entry) (h : e.name.data.length ≤ 31) :
    storeEntry e = e := by
  unfold storeEntry truncName
  cases e with
  | mk nm d =>
      dsimp only
      congr 1
      cases nm with
      | mk cs =>
          dsimp only at h ⊢
          congr 1
          exact List.take_of_length_le h

/-- C5: loading a directory whose storage enumeration yields more than 50
children (extension filter disabled, `SHOW_ONLY_STL = false`) succeeds,
stores exactly the first 50 children in enumeration order, and silently
drops the remainder. -/
theorem load_caps_at_capacity (fs : String → OpenResult) (path : String)
    (m : Model) (children : List Entry)
    (hfs : fs path = OpenResult.dir children)
    (hlen : 50 < children.length)
    (hnames : ∀ e ∈ children, e.name.data.length ≤ 31) :
    (loadDirectory fs path m).1 = true ∧
    (loadDirectory fs path m).2.entryCount = 50 ∧
    (loadDirectory fs path m).2.entries.take 50 = children.take 50 := by
  have hscan : scanChildren children 0 = children.take 50 := by
    rw [scanChildren_no_filter children 0 le_rfl (by unfold MAX_ENTRIES; omega)]
    have h50 : (MAX_ENTRIES - 0).toNat = 50 := by decide
    rw [h50]
    calc (children.take 50).map storeEntry
        = (children.take 50).map id :=
          List.map_congr_left
            (fun e he => storeEntry_eq_self e (hnames e (List.take_subset _ _ he)))
      _ = children.take 50 := List.map_id _
  have hlentake : (children.take 50).length = 50 := by
    rw [List.length_take]
    omega
  unfold loadDirectory
  rw [hfs]
  dsimp only
  rw [hscan]
  refine ⟨rfl, ?_, ?_⟩
  · rw [(clampScroll_frame _).1]
    dsimp only
    rw [hlentake]
    rfl
  · rw [(clampScroll_frame _).2.1]
    dsimp only
    exact List.take_left' hlentake

/-- C5, instantiated: 51 identical children, of which exactly 50 survive. -/
theorem load_caps_at_capacity_witness :
    ((fun _ : String => OpenResult.dir (List.replicate 51 (Entry.mk "a" false))) "/" =
      OpenResult.dir (List.replicate 51 (Entry.mk "a" false))) ∧
    50 < (List.replicate 51 (Entry.mk "a" false)).length ∧
    (∀ e ∈ List.replicate 51 (Entry.mk "a" false), e.name.data.length ≤ 31) ∧
    (loadDirectory (fun _ => OpenResult.dir (List.replicate 51 (Entry.mk "a" false)))
        "/" (Model.mk [] 0 0 0 "/")).1 = true ∧
    (loadDirectory (fun _ => OpenResult.dir (List.replicate 51 (Entry.mk "a" false)))
        "/" (Model.mk [] 0 0 0 "/")).2.entryCount = 50 ∧
    (loadDirectory (fun _ => OpenResult.dir (List.replicate 51 (Entry.mk "a" false)))
        "/" (Model.mk [] 0 0 0 "/")).2.entries.take 50 =
      (List.replicate 51 (Entry.mk "a" false)).take 50 :=
  ⟨rfl, by decide, by decide,
    (load_caps_at_capacity _ _ _ _ rfl (by decide) (by decide)).1,
    (load_caps_at_capacity _ _ _ _ rfl (by decide) (by decide)).2.1,
    (load_caps_at_capacity _ _ _ _ rfl (by decide) (by decide)).2.2⟩

/-- A list without '/' has no last-slash index. -/
theorem lastSlash_eq_none (ys : List Char) (h : '/' ∉ ys) : lastSlash ys = none := by
  induction ys with
  | nil => rfl
  | cons c rest ih =>
      unfold lastSlash
      rw [ih (fun hc => h (List.mem_cons_of_mem _ hc))]
      rw [if_neg (by intro hc; subst hc; exact h (List.mem_cons_self _ _))]

/-- When the suffix after a '/' contains no further '/', the last slash of
`xs ++ '/' :: ys` sits exactly at position `xs.length`. -/
theorem lastSlash_append (xs ys : List Char) (h : '/' ∉ ys) :
    lastSlash (xs ++ '/' :: ys) = some xs.length := by
  induction xs with
  | nil =>
      rw [List.nil_append]
      unfold lastSlash
      rw [lastSlash_eq_none ys h]
      simp
  | cons c rest ih =>
      rw [List.cons_append]
      unfold lastSlash
      rw [ih]
      rfl

/-- C4: for a valid (rooted, in-buffer) non-root path `p` and a nonempty
child name without '/', joining and then ascending one level round-trips:
`goParent (pathJoin p name) = p`.  The bound `|p| + 1 + |name| ≤ 79` says the
joined path fits the 80-byte path buffer without `snprintf` truncation. -/
theorem parent_join_roundtrip (p name : String)
    (hvalid : p.data.head? = some '/')
    (hroot : p ≠ "/")
    (hname : name ≠ "")
    (hslash : '/' ∉ name.data)
    (hfit : p.data.length + 1 + name.data.length ≤ 79) :
    goParent (pathJoin p name) = p := by
  have hpne : p.data ≠ [] := by
    intro hp
    rw [hp] at hvalid
    exact Option.noConfusion hvalid
  have hnne : name.data ≠ [] := by
    intro hn
    apply hname
    cases name with
    | mk d => cases hn; rfl
  have hqdata : (pathJoin p name).data = p.data ++ '/' :: name.data := by
    unfold pathJoin snprintf80
    rw [if_neg hroot]
    dsimp only
    rw [String.data_append, String.data_append]
    have hd : (("/" : String).data : List Char) = ['/'] := rfl
    rw [hd, List.append_assoc, List.singleton_append]
    exact List.take_of_length_le
      (by rw [List.length_append, List.length_cons]; omega)
  have hqroot : pathJoin p name ≠ "/" := by
    intro hq
    have hd := congrArg String.data hq
    rw [hqdata] at hd
    have hlen := congrArg List.length hd
    rw [List.length_append, List.length_cons,
      show (("/" : String).data).length = 1 from rfl] at hlen
    have := List.length_pos.mpr hpne
    omega
  set c := name.data.getLast hnne with hcdef
  have hcmem : c ∈ name.data := List.getLast_mem hnne
  have hcne : c ≠ '/' := fun hc => hslash (hc ▸ hcmem)
  have hga : ('/' :: name.data).getLast? = some c := by
    rw [show ('/' :: name.data) = ['/'] ++ name.data from rfl, List.getLast?_append,
      List.getLast?_eq_getLast_of_ne_nil hnne]
    rfl
  have hgq : (p.data ++ '/' :: name.data).getLast? = some c := by
    rw [List.getLast?_append, hga]
    rfl
  unfold goParent
  rw [if_neg hqroot]
  dsimp only
  rw [hqdata]
  rw [if_neg (fun hand => hcne (Option.some.inj (hgq ▸ hand.2)))]
  rw [lastSlash_append _ _ hslash]
  dsimp only
  rw [if_neg (by have := List.length_pos.mpr hpne; omega)]
  rw [List.take_left]

/-- C4, instantiated at `p = "/a"`, `name = "b"`. -/
theorem parent_join_roundtrip_witness :
    ("/a" : String).data.head? = some '/' ∧
    ("/a" : String) ≠ "/" ∧
    ("b" : String) ≠ "" ∧
    '/' ∉ ("b" : String).data ∧
    ("/a" : String).data.length + 1 + ("b" : String).data.length ≤ 79 ∧
    goParent (pathJoin "/a" "b") = "/a" :=
  ⟨by decide, by decide, by decide, by decide, by decide,
    parent_join_roundtrip "/a" "b" (by decide) (by decide) (by decide)
      (by decide) (by decide)⟩

/-- A last-slash index is always inside the list. -/
theorem lastSlash_lt_length (l : List Char) (i : Nat) (h : lastSlash l = some i) :
    i < l.length := by
  induction l generalizing i with
  | nil => exact Option.noConfusion h
  | cons c rest ih =>
      unfold lastSlash at h
      cases hr : lastSlash rest with
      | some j =>
          rw [hr] at h
          injection h with h2
          subst h2
          rw [List.length_cons]
          exact Nat.succ_lt_succ (ih j hr)
      | none =>
          rw [hr] at h
          split_ifs at h with hc
          injection h with h2
          subst h2
          rw [List.length_cons]
          exact Nat.succ_pos _

/-- `goParent` never lengthens a path beyond the 80-byte buffer. -/
theorem goParent_len79 (p : String) (h : p.data.length ≤ 79) :
    (goParent p).data.length ≤ 79 := by
  unfold goParent
  split_ifs with hr
  · exact h
  · dsimp only
    by_cases hcond : p.data.length > 1 ∧ p.data.getLast? = some '/'
    · rw [if_pos hcond]
      cases hls : lastSlash p.data.dropLast with
      | none => dsimp only; decide
      | some i =>
          dsimp only
          split_ifs with hi <;> dsimp only
          · have := List.length_take 1 p.data.dropLast
            have := List.length_dropLast p.data
            omega
          · have := List.length_take i p.data.dropLast
            have := List.length_dropLast p.data
            omega
    · rw [if_neg hcond]
      cases hls : lastSlash p.data with
      | none => dsimp only; decide
      | some i =>
          dsimp only
          split_ifs with hi <;> dsimp only
          · have := List.length_take 1 p.data
            omega
          · have := List.length_take i p.data
            omega

/-- Copying a string that fits the 80-byte buffer is the identity. -/
theorem strncpy79_eq (s : String) (h : s.data.length ≤ 79) : strncpy79 s = s := by
  unfold strncpy79
  cases s with
  | mk d =>
      dsimp only at h ⊢
      congr 1
      exact List.take_of_length_le h

/-- C7: with `currentPath` away from the root, `onBack` computes
`parent(currentPath)` and attempts to load it; on success it commits
`currentPath` to the parent, and on failure it forces `currentPath = "/"`
and loads root unconditionally (the root load's own result is ignored). -/
theorem back_parent_or_root (fs : String → OpenResult) (m : Model)
    (hroot : m.currentPath ≠ "/")
    (hlen : m.currentPath.data.length ≤ 79) :
    ((loadDirectory fs (goParent m.currentPath) m).1 = true →
      onBack fs m =
        { (loadDirectory fs (goParent m.currentPath) m).2 with
          currentPath := goParent m.currentPath }) ∧
    ((loadDirectory fs (goParent m.currentPath) m).1 = false →
      onBack fs m =
        { (loadDirectory fs "/"
            (loadDirectory fs (goParent m.currentPath) m).2).2 with
          currentPath := "/" }) := by
  have hcpy : strncpy79 m.currentPath = m.currentPath := strncpy79_eq _ hlen
  have hpcpy : strncpy79 (goParent m.currentPath) = goParent m.currentPath :=
    strncpy79_eq _ (goParent_len79 _ hlen)
  constructor
  · intro hok
    unfold onBack
    rw [if_neg hroot]
    dsimp only
    rw [hcpy, hpcpy, if_pos hok]
  · intro hfail
    unfold onBack
    rw [if_neg hroot]
    dsimp only
    rw [hcpy, if_neg (by rw [hfail]; exact Bool.false_ne_true)]

/-- C7, instantiated: Back from "/a/b" with an all-directories oracle
commits the parent "/a". -/
theorem back_parent_or_root_witness :
    (Model.mk [] 0 0 0 "/a/b").currentPath ≠ "/" ∧
    (Model.mk [] 0 0 0 "/a/b").currentPath.data.length ≤ 79 ∧
    onBack (fun _ => OpenResult.dir []) (Model.mk [] 0 0 0 "/a/b") =
      { (loadDirectory (fun _ => OpenResult.dir [])
          (goParent (Model.mk [] 0 0 0 "/a/b").currentPath)
          (Model.mk [] 0 0 0 "/a/b")).2 with
        currentPath := goParent (Model.mk [] 0 0 0 "/a/b").currentPath } :=
  ⟨by decide, by decide,
    (back_parent_or_root _ _ (by decide) (by decide)).1 (by decide)⟩

/-- While inside the release-wait loop, LOW samples are consumed without any
emission, and the first HIGH sample resets the state to released at its
sample time. -/
theorem debRun_waiting (b : Bool) (τ rel : Nat) (lows : List Nat)
    (extra : List (Nat × Bool)) :
    debRun ⟨b, τ, true⟩ (lows.map (fun p => (p, false)) ++ (rel, true) :: extra) =
      debRun ⟨true, rel, false⟩ extra := by
  induction lows with
  | nil =>
      rw [List.map_nil, List.nil_append]
      simp [debRun, debStep]
  | cons p lows ih =>
      rw [List.map_cons, List.cons_append]
      simpa [debRun, debStep] using ih

/-- From a pressed state whose last observed change was at `p0`, running
over further LOW samples `ps` and then a HIGH sample at `rel`: exactly the
first LOW sample later than `p0 + DEBOUNCE_MS` (if any) is emitted, the rest
of the press is swallowed by the release wait, and processing resumes after
the HIGH sample in the released state. -/
theorem debRun_pressed (p0 rel : Nat) (ps : List Nat) (extra : List (Nat × Bool)) :
    debRun ⟨false, p0, false⟩ (ps.map (fun p => (p, false)) ++ (rel, true) :: extra) =
      (ps.filter (fun p => p0 + DEBOUNCE_MS < p)).take 1 ++
        debRun ⟨true, rel, false⟩ extra := by
  induction ps with
  | nil =>
      rw [List.map_nil, List.nil_append, List.filter_nil, List.take_nil,
        List.nil_append]
      simp [debRun, debStep]
  | cons p ps ih =>
      rw [List.map_cons, List.cons_append, List.filter_cons]
      by_cases hp : p0 + DEBOUNCE_MS < p
      · rw [if_pos (by simpa using hp)]
        have harith : p - p0 > DEBOUNCE_MS := by omega
        have hstep : debStep ⟨false, p0, false⟩ (p, false) =
            (⟨false, p0, true⟩, true) := by
          simp [debStep, harith]
        conv_lhs => rw [debRun]
        rw [hstep]
        dsimp only
        rw [if_pos rfl]
        rw [debRun_waiting false p0 rel ps extra]
        rfl
      · rw [if_neg (by simpa using hp)]
        have harith : ¬(p - p0 > DEBOUNCE_MS) := by omega
        have hstep : debStep ⟨false, p0, false⟩ (p, false) =
            (⟨false, p0, false⟩, false) := by
          simp [debStep, harith]
        conv_lhs => rw [debRun]
        rw [hstep]
        dsimp only
        rw [if_neg Bool.false_ne_true]
        exact ih

/-- C8: over one press-release cycle — LOW samples at times `p0 :: ps`
followed by the first HIGH sample at `rel` — the debouncer, started released,
emits at most one press event; an emitted event is one of the LOW sample
times and lies strictly more than `DEBOUNCE_MS` after the observed press
edge `p0` (the level reads LOW continuously from `p0` to it); and after an
emission the run blocks through the remaining LOW samples until the HIGH
sample, resuming on `extra` in the released state either way. -/
theorem debounce_press_release_cycle (t0 p0 rel : Nat) (ps : List Nat)
    (extra : List (Nat × Bool)) :
    debRun ⟨true, t0, false⟩
        ((p0 :: ps).map (fun p => (p, false)) ++ (rel, true) :: extra) =
      (ps.filter (fun p => p0 + DEBOUNCE_MS < p)).take 1 ++
        debRun ⟨true, rel, false⟩ extra ∧
    ((ps.filter (fun p => p0 + DEBOUNCE_MS < p)).take 1).length ≤ 1 ∧
    (∀ t ∈ (ps.filter (fun p => p0 + DEBOUNCE_MS < p)).take 1,
      t ∈ p0 :: ps ∧ p0 + DEBOUNCE_MS < t) := by
  refine ⟨?_, ?_, ?_⟩
  · rw [List.map_cons, List.cons_append]
    have hstep : debStep ⟨true, t0, false⟩ (p0, false) =
        (⟨false, p0, false⟩, false) := by
      simp [debStep]
    conv_lhs => rw [debRun]
    rw [hstep]
    dsimp only
    rw [if_neg Bool.false_ne_true]
    exact debRun_pressed p0 rel ps extra
  · exact List.length_take_le 1 _
  · intro t ht
    have ht2 : t ∈ ps.filter (fun p => decide (p0 + DEBOUNCE_MS < p)) :=
      List.take_subset _ _ ht
    refine ⟨List.mem_cons_of_mem _ (List.mem_of_mem_filter ht2), ?_⟩
    have := List.of_mem_filter ht2
    simpa using this

/-- C8, instantiated: one cycle with LOW samples at times 0 and 130 and the
release at 200 emits exactly one press, at time 130, which is a sample of
the press more than the debounce interval after the press edge. -/
theorem debounce_press_release_cycle_witness :
    (130 : Nat) ∈ (0 : Nat) :: [130] ∧ (0 : Nat) + DEBOUNCE_MS < 130 :=
  (debounce_press_release_cycle 0 0 200 [130] []).2.2 130 (by decide)

/-- C6, instantiated: three advances on a three-entry listing return the
selection to its start. -/
theorem advance_cyclic_witness :
    0 < (Model.mk [⟨"a", true⟩, ⟨"b", false⟩, ⟨"c", true⟩] 3 1 0 "/").entryCount ∧
    (onScroll^[(Model.mk [⟨"a", true⟩, ⟨"b", false⟩, ⟨"c", true⟩] 3 1 0 "/").entryCount.toNat]
        (Model.mk [⟨"a", true⟩, ⟨"b", false⟩, ⟨"c", true⟩] 3 1 0 "/")).selectionIndex =
      (Model.mk [⟨"a", true⟩, ⟨"b", false⟩, ⟨"c", true⟩] 3 1 0 "/").selectionIndex :=
  ⟨by decide, advance_cyclic _ (by decide) (by decide) (by decide)⟩

end FileBrowser
